import Mathlib

/-!
Verification of `astrbot_plugin_chatsummary` against its specification.

Shallow embedding of the plugin's pure core:
* `utils.py` / `utils/time_parser.py` — `parse_time_delta`
* `services/message_retriever.py` — `get_messages_by_time`, `get_messages_by_count`
* `services/llm_service.py` — `get_summary`, `_manage_cache`, `get_image_description`
* `services/summary_orchestrator.py` — summarization retry / degradation flow
* `services/message_formatter.py` — `format_messages` and its part handlers

Conventions:
* Python `str` is Lean `String`; character counts use `List Char`.
* Machine integers are `Nat`/`Int` (Python ints are unbounded).
* Absent dict keys are `Option` fields; Python truthiness is modelled explicitly
  (`none`, empty strings, and `0` are falsy).
* Fallible code returns `Except Unit _`; `await`/`async` is erased (the code under
  scrutiny is sequential per request).
* Wall-clock timestamps are epoch seconds (`Nat`); `asyncio.sleep` delays are not
  modelled (they do not affect any value computed here).
-/

namespace ChatSummary

/-- Lowercase a string character-wise, modelling Python `str.lower()`
(ASCII-faithful; the claims only use ASCII duration tokens and URLs). -/
def strLower (s : String) : String := ⟨s.data.map Char.toLower⟩

/-- Python `str.strip()` on the left. -/
def trimLeftChars (cs : List Char) : List Char := cs.dropWhile Char.isWhitespace

/-- Python `str.strip()` on the right. -/
def trimRightChars (cs : List Char) : List Char :=
  (cs.reverse.dropWhile Char.isWhitespace).reverse

/-- Python `str.strip()` (no arguments): drop whitespace on both ends. -/
def pyStrip (s : String) : String := ⟨trimRightChars (trimLeftChars s.data)⟩

/-- Python `str.rstrip()`. -/
def pyRstrip (s : String) : String := ⟨trimRightChars s.data⟩

/-- Python `s.startswith(p)` (character-wise, kernel-reducible). -/
def pyStartsWith (s p : String) : Bool := p.data.isPrefixOf s.data

/-- Python `s.endswith(p)`. -/
def pyEndsWith (s p : String) : Bool :=
  p.data.reverse.isPrefixOf s.data.reverse

/-- Python `s[n:]` (slicing counts characters). -/
def pyDrop (s : String) (n : Nat) : String := ⟨s.data.drop n⟩

/-- Python `s[:n]`. -/
def pyTake (s : String) (n : Nat) : String := ⟨s.data.take n⟩

/-- Python `s[:-n]` for `n ≤ len(s)`. -/
def pyDropRight (s : String) (n : Nat) : String :=
  ⟨s.data.take (s.data.length - n)⟩

/-- Python `len(s)` (characters). -/
def pyLen (s : String) : Nat := s.data.length

/-- Python truthiness of an optional string (`None` and `""` are falsy). -/
def strTruthy : Option String → Bool
  | none => false
  | some s => s ≠ ""

/-- Python `a or b` for optional strings. -/
def pyOrStr (a b : Option String) : Option String :=
  if strTruthy a then a else b

/-- Python truthiness of an optional integer (`None` and `0` are falsy). -/
def intTruthy : Option Int → Bool
  | none => false
  | some i => i ≠ 0

/-! ### DurationParser — `utils.py`, `parse_time_delta` -/

/-- Numeric value of a digit run, as Python `int(value)` on a `\d+` match. -/
def natOfDigits (cs : List Char) : Nat :=
  cs.foldl (fun n c => 10 * n + (c.toNat - '0'.toNat)) 0

/-- Unit characters of the pattern `(\d+)([dhm])`. -/
def isUnitChar (c : Char) : Bool := c = 'd' || c = 'h' || c = 'm'

/-- Character-by-character scanner equivalent to
`re.findall(r'(\d+)([dhm])', s)` for this pattern: a match is a maximal digit
run immediately followed by a unit character (greedy `\d+` can never succeed by
backtracking, because every character it gives back is a digit and no digit is
a unit), matches do not overlap, and unmatched characters are skipped. The
second argument is the digit run accumulated so far. -/
def scanTokens : List Char → List Char → List (Nat × Char)
  | [], _ => []
  | c :: rest, run =>
    if c.isDigit then scanTokens rest (run ++ [c])
    else if isUnitChar c ∧ run ≠ [] then
      (natOfDigits run, c) :: scanTokens rest []
    else
      scanTokens rest []

/-- `re.findall(r'(\d+)([dhm])', s)`. -/
def findTokens (cs : List Char) : List (Nat × Char) := scanTokens cs []

/-- The `delta_args` dictionary built by `parse_time_delta`: a key is present
only if the corresponding unit occurred; later occurrences overwrite. -/
structure DeltaArgs where
  days : Option Nat
  hours : Option Nat
  minutes : Option Nat
  deriving DecidableEq, Repr

def DeltaArgs.empty : DeltaArgs := ⟨none, none, none⟩

/-- One iteration of the `for value, unit in parts` loop. -/
def setUnit (a : DeltaArgs) (t : Nat × Char) : DeltaArgs :=
  if t.2 = 'd' then { a with days := some t.1 }
  else if t.2 = 'h' then { a with hours := some t.1 }
  else if t.2 = 'm' then { a with minutes := some t.1 }
  else a

/-- Total minutes of `timedelta(**delta_args)` (missing keys default to `0`).
Python `timedelta`'s ±999999999-day range bound is not modelled; all inputs in
the claims are far inside it. -/
def DeltaArgs.toMinutes (a : DeltaArgs) : Nat :=
  1440 * a.days.getD 0 + 60 * a.hours.getD 0 + a.minutes.getD 0

/-- `parse_time_delta` from `utils.py`: lowercase, find all `(\d+)([dhm])`
tokens, return `None` when there are none, otherwise build the kwargs dict and
convert. The result is the span in minutes. -/
def parse_time_delta (s : String) : Option Nat :=
  let parts := findTokens (strLower s).data
  if parts = [] then none
  else some ((parts.foldl setUnit DeltaArgs.empty).toMinutes)

/-- Last value assigned to a unit by the token list, starting from `d`. -/
def lastValD : List (Nat × Char) → Char → Option Nat → Option Nat
  | [], _, d => d
  | t :: ts, u, d => lastValD ts u (if t.2 = u then some t.1 else d)

theorem setUnit_days (a : DeltaArgs) (t : Nat × Char) :
    (setUnit a t).days = if t.2 = 'd' then some t.1 else a.days := by
  simp only [setUnit]; split_ifs <;> simp_all

theorem setUnit_hours (a : DeltaArgs) (t : Nat × Char) :
    (setUnit a t).hours = if t.2 = 'h' then some t.1 else a.hours := by
  simp only [setUnit]; split_ifs <;> simp_all

theorem setUnit_minutes (a : DeltaArgs) (t : Nat × Char) :
    (setUnit a t).minutes = if t.2 = 'm' then some t.1 else a.minutes := by
  simp only [setUnit]; split_ifs <;> simp_all

theorem foldl_setUnit_days (ts : List (Nat × Char)) (a : DeltaArgs) :
    (ts.foldl setUnit a).days = lastValD ts 'd' a.days := by
  induction ts generalizing a with
  | nil => rfl
  | cons t ts ih =>
    simp only [List.foldl_cons, lastValD, ih, setUnit_days]

theorem foldl_setUnit_hours (ts : List (Nat × Char)) (a : DeltaArgs) :
    (ts.foldl setUnit a).hours = lastValD ts 'h' a.hours := by
  induction ts generalizing a with
  | nil => rfl
  | cons t ts ih =>
    simp only [List.foldl_cons, lastValD, ih, setUnit_hours]

theorem foldl_setUnit_minutes (ts : List (Nat × Char)) (a : DeltaArgs) :
    (ts.foldl setUnit a).minutes = lastValD ts 'm' a.minutes := by
  induction ts generalizing a with
  | nil => rfl
  | cons t ts ih =>
    simp only [List.foldl_cons, lastValD, ih, setUnit_minutes]

/-- C3 counterexample: on `"1h2h"` the parser yields 2 hours (the second `h`
token overwrites the first in the kwargs dict), not the 3 hours the claim's
additive-accumulation rule demands. -/
theorem parse_time_delta_one_h_two_h :
    parse_time_delta "1h2h" = some 120 ∧ (120 : Nat) ≠ 180 := by
  constructor
  · rfl
  · decide

/-- C3 (amended): for every input string, `parse_time_delta` returns `none`
exactly when no `(integer)(unit)` token with unit in `{d, h, m}`
(case-insensitive) matches, and otherwise returns the span determined by the
*last* matched token of each unit (later duplicates overwrite earlier ones,
e.g. `"1h2h"` yields 2 hours); unmatched substrings are ignored and the
function is total (never raises). -/
theorem parse_time_delta_spec (s : String) :
    (parse_time_delta s = none ↔ findTokens (strLower s).data = []) ∧
    (findTokens (strLower s).data ≠ [] →
      parse_time_delta s =
        some (1440 * (lastValD (findTokens (strLower s).data) 'd' none).getD 0 +
              60 * (lastValD (findTokens (strLower s).data) 'h' none).getD 0 +
              (lastValD (findTokens (strLower s).data) 'm' none).getD 0)) := by
  constructor
  · constructor
    · intro h
      by_contra hne
      simp only [parse_time_delta, if_neg hne] at h
      exact Option.noConfusion h
    · intro h
      simp [parse_time_delta, h]
  · intro h
    simp only [parse_time_delta, if_neg h]
    congr 1
    simp [DeltaArgs.toMinutes, foldl_setUnit_days, foldl_setUnit_hours,
      foldl_setUnit_minutes, DeltaArgs.empty]

/-- Witness for C3's amended theorem at `"1d2h30m"` (and at `"1h2h"`). -/
theorem parse_time_delta_spec_witness :
    findTokens (strLower "1d2h30m").data ≠ [] ∧
    parse_time_delta "1d2h30m" =
      some (1440 * (lastValD (findTokens (strLower "1d2h30m").data) 'd' none).getD 0 +
            60 * (lastValD (findTokens (strLower "1d2h30m").data) 'h' none).getD 0 +
            (lastValD (findTokens (strLower "1d2h30m").data) 'm' none).getD 0) :=
  ⟨by decide, (parse_time_delta_spec "1d2h30m").2 (by decide)⟩

/-! ### PaginatedHistoryRetriever — `services/message_retriever.py`

The chat platform's `get_group_msg_history` action is an external collaborator.
Modelled from the spec (§4.2, §6): the store is a chronologically ascending
list of messages with strictly increasing, positive `message_seq`; the cursor
query (`message_seq = c, count = B, reverseOrder = True`) returns the up-to-`B`
newest messages with `message_seq ≤ c` (cursor `0` is the "most recent"
sentinel and imposes no bound), in ascending order so that the retriever's
in-batch `reversed(...)` scan runs newest-to-oldest and, as the spec states,
the cursor is "advanced to the oldest `sequenceId` seen so far"; the count-only
query (no `reverseOrder`) returns the `n` newest messages "in
reverse-chronological order" (spec §4.2, By count). -/

/-- A raw history message as consumed by `MessageRetriever` (only the
`message_seq` and `time` keys are read there). -/
structure HistMsg where
  message_seq : Nat
  time : Nat
  deriving DecidableEq, Repr

/-- The newest `n` elements of an ascending list, still ascending. -/
def lastN (n : Nat) (l : List HistMsg) : List HistMsg := l.drop (l.length - n)

/-- Cursor-based batch query (`reverseOrder = True` form), modelled from the
spec; result is ascending, the retriever reverses it before scanning. -/
def fetchHistory (store : List HistMsg) (cursor batchSize : Nat) : List HistMsg :=
  let elig := if cursor = 0 then store
              else store.filter (fun m => m.message_seq ≤ cursor)
  lastN batchSize elig

/-- Count-only batch query, modelled from the spec: the platform returns the
`n` newest messages in reverse-chronological order. -/
def fetchByCount (store : List HistMsg) (n : Nat) : List HistMsg :=
  (lastN n store).reverse

/-- A well-formed store: positive, strictly increasing sequence ids, and
timestamps monotone in sequence order. -/
structure WFStore (store : List HistMsg) : Prop where
  seq_pos : ∀ m ∈ store, 0 < m.message_seq
  seq_sorted : store.Pairwise (fun a b => a.message_seq < b.message_seq)
  time_mono : ∀ a ∈ store, ∀ b ∈ store,
    a.message_seq ≤ b.message_seq → a.time ≤ b.time

/-- The `for msg in messages` scan of one (already reversed) batch in
`get_messages_by_time`: skip the batch-boundary overlap, stop at the first
message older than the target start time, otherwise accumulate and advance the
cursor. Returns (accumulated messages, cursor, breakFlag). -/
def scanBatch (target : Nat) :
    List HistMsg → List HistMsg → Nat → (List HistMsg × Nat × Bool)
  | [], acc, last => (acc, last, false)
  | m :: rest, acc, last =>
    if m.message_seq = last ∧ last ≠ 0 then scanBatch target rest acc last
    else if m.time < target then (acc, last, true)
    else scanBatch target rest (acc ++ [m]) m.message_seq

/-- The `while True` pagination loop of `get_messages_by_time`, with explicit
fuel bounding the number of iterations (the source loop has no iteration bound;
`none` means the fuel ran out before the loop exited). Accumulation order is
newest-to-oldest, as in the source's `all_messages`. -/
def getByTimeLoop (store : List HistMsg) (target : Nat) :
    Nat → List HistMsg → Nat → Option (List HistMsg)
  | 0, _, _ => none
  | fuel + 1, acc, last =>
    if fetchHistory store last 100 = [] then some acc
    else
      if (scanBatch target (fetchHistory store last 100).reverse acc last).2.2 then
        some (scanBatch target (fetchHistory store last 100).reverse acc last).1
      else
        getByTimeLoop store target fuel
          (scanBatch target (fetchHistory store last 100).reverse acc last).1
          (scanBatch target (fetchHistory store last 100).reverse acc last).2.1

/-- `MessageRetriever.get_messages_by_time` over the modelled store: run the
pagination loop from the "most recent" sentinel and reverse the accumulator
into chronological order (`return reversed(all_messages)`). `target` is the
cutoff `now - time_delta` in epoch seconds. -/
def get_messages_by_time (store : List HistMsg) (target : Nat) (fuel : Nat) :
    Option (List HistMsg) :=
  (getByTimeLoop store target fuel [] 0).map List.reverse

/-- `MessageRetriever.get_messages_by_count` over the modelled store: a single
batch request whose result is returned as-is (the source performs no
reordering); a failed request (`failed = true`) yields `[]`. -/
def get_messages_by_count (store : List HistMsg) (count : Nat)
    (failed : Bool) : List HistMsg :=
  if failed then [] else fetchByCount store count

/-- Loop invariant of the pagination loop: the accumulator is
newest-to-oldest with strictly decreasing sequence ids, every element is inside
the time window and comes from the store, and the cursor is the sequence id of
the last (oldest) accumulated message (or the `0` sentinel with an empty
accumulator). -/
structure PageInv (store : List HistMsg) (target : Nat)
    (acc : List HistMsg) (last : Nat) : Prop where
  desc : acc.Pairwise (fun a b => b.message_seq < a.message_seq)
  in_window : ∀ m ∈ acc, target ≤ m.time
  in_store : ∀ m ∈ acc, m ∈ store
  cursor : (acc = [] ∧ last = 0) ∨
    (∃ m, acc.getLast? = some m ∧ m.message_seq = last)
  cursor_le : ∀ m ∈ acc, last ≤ m.message_seq

theorem scanBatch_inv {store : List HistMsg} {target : Nat}
    (hpos : ∀ m ∈ store, 0 < m.message_seq)
    (bs : List HistMsg) (acc : List HistMsg) (last : Nat)
    (hdesc : bs.Pairwise (fun a b => b.message_seq < a.message_seq))
    (hsub : ∀ b ∈ bs, b ∈ store)
    (hle : last ≠ 0 → ∀ b ∈ bs, b.message_seq ≤ last)
    (hinv : PageInv store target acc last) :
    PageInv store target (scanBatch target bs acc last).1
      (scanBatch target bs acc last).2.1 := by
  induction bs generalizing acc last with
  | nil => simpa [scanBatch] using hinv
  | cons m rest ih =>
    by_cases hskip : m.message_seq = last ∧ last ≠ 0
    · rw [scanBatch, if_pos hskip]
      exact ih acc last (hdesc.sublist (List.sublist_cons_self _ _))
        (fun b hb => hsub b (List.mem_cons_of_mem _ hb))
        (fun h b hb => hle h b (List.mem_cons_of_mem _ hb)) hinv
    · rw [scanBatch, if_neg hskip]
      by_cases htime : m.time < target
      · rw [if_pos htime]; exact hinv
      · rw [if_neg htime]
        have hm_store : m ∈ store := hsub m (List.mem_cons_self _ _)
        -- every accumulated message has a strictly larger sequence id than m
        have hlt_acc : ∀ a ∈ acc, m.message_seq < a.message_seq := by
          intro a ha
          rcases hinv.cursor with ⟨hnil, _⟩ | ⟨x, hx, hxs⟩
          · rw [hnil] at ha; exact absurd ha (List.not_mem_nil a)
          · have hx_mem : x ∈ acc := by
              obtain ⟨hne, hxeq⟩ :=
                List.mem_getLast?_eq_getLast (l := acc) (x := x)
                  (by rw [Option.mem_def]; exact hx)
              rw [hxeq]; exact List.getLast_mem hne
            have hlast0 : last ≠ 0 := by
              have := hpos x (hinv.in_store x hx_mem); omega
            have h1 : m.message_seq ≤ last := hle hlast0 m (List.mem_cons_self _ _)
            have h2 : m.message_seq ≠ last := fun h => hskip ⟨h, hlast0⟩
            have h3 : m.message_seq < last := lt_of_le_of_ne h1 h2
            exact lt_of_lt_of_le h3 (hinv.cursor_le a ha)
        have hinv' : PageInv store target (acc ++ [m]) m.message_seq := by
          refine ⟨?_, ?_, ?_, ?_, ?_⟩
          · rw [List.pairwise_append]
            exact ⟨hinv.desc, List.pairwise_singleton _ _,
              fun a ha b hb => by
                rw [List.mem_singleton] at hb; rw [hb]; exact hlt_acc a ha⟩
          · intro x hx
            rcases List.mem_append.mp hx with h | h
            · exact hinv.in_window x h
            · rw [List.mem_singleton] at h; rw [h]; omega
          · intro x hx
            rcases List.mem_append.mp hx with h | h
            · exact hinv.in_store x h
            · rw [List.mem_singleton] at h; rw [h]; exact hm_store
          · right; exact ⟨m, List.getLast?_concat _, rfl⟩
          · intro x hx
            rcases List.mem_append.mp hx with h | h
            · exact le_of_lt (hlt_acc x h)
            · rw [List.mem_singleton] at h; rw [h]
        exact ih (acc ++ [m]) m.message_seq
          (hdesc.sublist (List.sublist_cons_self _ _))
          (fun b hb => hsub b (List.mem_cons_of_mem _ hb))
          (fun _ b hb => le_of_lt (List.rel_of_pairwise_cons hdesc hb)) hinv'

theorem fetchHistory_sublist (store : List HistMsg) (cursor B : Nat) :
    List.Sublist (fetchHistory store cursor B) store := by
  unfold fetchHistory lastN
  by_cases h : cursor = 0
  · simp only [if_pos h]; exact List.drop_sublist _ _
  · simp only [if_neg h]
    exact (List.drop_sublist _ _).trans (List.filter_sublist _)

theorem getByTimeLoop_spec {store : List HistMsg} {target : Nat}
    (wf : WFStore store) :
    ∀ fuel acc last, PageInv store target acc last →
      ∀ out, getByTimeLoop store target fuel acc last = some out →
        out.Pairwise (fun a b => b.message_seq < a.message_seq) ∧
        (∀ m ∈ out, target ≤ m.time) ∧ (∀ m ∈ out, m ∈ store) := by
  intro fuel
  induction fuel with
  | zero =>
    intro acc last _ out h
    exact absurd h (by simp [getByTimeLoop])
  | succ fuel ih =>
    intro acc last hinv out h
    rw [getByTimeLoop] at h
    by_cases hempty : fetchHistory store last 100 = []
    · rw [if_pos hempty] at h
      obtain rfl : acc = out := Option.some.inj h
      exact ⟨hinv.desc, hinv.in_window, hinv.in_store⟩
    · rw [if_neg hempty] at h
      have hsubst : List.Sublist (fetchHistory store last 100) store :=
        fetchHistory_sublist store last 100
      have hdesc : (fetchHistory store last 100).reverse.Pairwise
          (fun a b => b.message_seq < a.message_seq) :=
        List.pairwise_reverse.mpr (wf.seq_sorted.sublist hsubst)
      have hsub : ∀ b ∈ (fetchHistory store last 100).reverse, b ∈ store := by
        intro b hb
        exact hsubst.subset (List.mem_reverse.mp hb)
      have hle : last ≠ 0 →
          ∀ b ∈ (fetchHistory store last 100).reverse, b.message_seq ≤ last := by
        intro h0 b hb
        have hb' : b ∈ fetchHistory store last 100 := List.mem_reverse.mp hb
        unfold fetchHistory lastN at hb'
        rw [if_neg h0] at hb'
        have := (List.mem_filter.mp ((List.drop_sublist _ _).subset hb')).2
        exact of_decide_eq_true this
      have hscan := scanBatch_inv wf.seq_pos
        (fetchHistory store last 100).reverse acc last hdesc hsub hle hinv
      by_cases hbrk :
          (scanBatch target (fetchHistory store last 100).reverse acc last).2.2
      · rw [if_pos hbrk] at h
        obtain rfl := Option.some.inj h
        exact ⟨hscan.desc, hscan.in_window, hscan.in_store⟩
      · rw [if_neg hbrk] at h
        exact ih _ _ hscan out h

/-- The simulated store of the spec's §8 boundary test: 250 messages with
`message_seq = time = i + 1`. -/
def exampleStore : List HistMsg :=
  (List.range 250).map (fun i => ⟨i + 1, i + 1⟩)

/-- Expected result: the 210 newest messages in chronological order. -/
def exampleExpected : List HistMsg :=
  (List.range 210).map (fun i => ⟨i + 41, i + 41⟩)

set_option maxRecDepth 100000 in
set_option maxHeartbeats 1600000 in
/-- C1: for every well-formed store and every cutoff, whatever
`get_messages_by_time` returns is chronologically ascending with strictly
increasing (hence duplicate-free) sequence ids and contains no message older
than the cutoff; and on the spec's simulated 250-message store at batch size
100 with a cutoff excluding the oldest 40 it returns exactly the 210 newest
messages in chronological order. -/
theorem get_messages_by_time_spec :
    (∀ (store : List HistMsg) (target fuel : Nat) (r : List HistMsg),
      WFStore store → get_messages_by_time store target fuel = some r →
        r.Pairwise (fun a b => a.message_seq < b.message_seq) ∧
        r.Pairwise (fun a b => a.time ≤ b.time) ∧
        (∀ m ∈ r, target ≤ m.time) ∧ (∀ m ∈ r, m ∈ store)) ∧
    get_messages_by_time exampleStore 41 10 = some exampleExpected := by
  constructor
  · intro store target fuel r wf h
    unfold get_messages_by_time at h
    obtain ⟨out, hout, hr⟩ := Option.map_eq_some'.mp h
    obtain ⟨hdesc, hwin, hstore⟩ := getByTimeLoop_spec wf fuel [] 0
      ⟨List.Pairwise.nil, by simp, by simp, Or.inl ⟨rfl, rfl⟩, by simp⟩ out hout
    subst hr
    have hasc : out.reverse.Pairwise (fun a b => a.message_seq < b.message_seq) :=
      List.pairwise_reverse.mpr hdesc
    refine ⟨hasc, ?_, ?_, ?_⟩
    · refine hasc.imp_of_mem ?_
      intro a b ha hb hlt
      exact wf.time_mono a (hstore a (List.mem_reverse.mp ha))
        b (hstore b (List.mem_reverse.mp hb)) (le_of_lt hlt)
    · intro m hm; exact hwin m (List.mem_reverse.mp hm)
    · intro m hm; exact hstore m (List.mem_reverse.mp hm)
  · decide

set_option maxRecDepth 100000 in
set_option maxHeartbeats 1600000 in
/-- Witness for C1: the general theorem instantiated at the concrete
simulated store. -/
theorem get_messages_by_time_spec_witness :
    exampleExpected.Pairwise (fun a b => a.message_seq < b.message_seq) ∧
    exampleExpected.Pairwise (fun a b => a.time ≤ b.time) ∧
    (∀ m ∈ exampleExpected, 41 ≤ m.time) ∧
    (∀ m ∈ exampleExpected, m ∈ exampleStore) :=
  get_messages_by_time_spec.1 exampleStore 41 10 exampleExpected
    ⟨by decide, by decide, by decide⟩ get_messages_by_time_spec.2

set_option maxRecDepth 100000 in
set_option maxHeartbeats 1600000 in
/-- C5: on the 500-message simulated store, `get_messages_by_count` does
return exactly the 30 newest messages of a single batch and returns `[]` on a
failed request, but it returns the platform's reverse-chronological batch
*unreversed*: the result is in reverse-chronological order, not the
chronological ascending order the spec's retriever contract promises. -/
theorem get_messages_by_count_not_reversed :
    get_messages_by_count ((List.range 500).map (fun i => ⟨i + 1, i + 1⟩)) 30 false
        = ((List.range 30).map (fun i => ⟨500 - i, 500 - i⟩)) ∧
    ¬ ((List.range 30).map (fun i : Nat => (⟨500 - i, 500 - i⟩ : HistMsg))).Pairwise
        (fun a b => a.time ≤ b.time) ∧
    get_messages_by_count ((List.range 500).map (fun i => ⟨i + 1, i + 1⟩)) 30 true
        = [] := by
  refine ⟨by decide, by decide, rfl⟩

/-! ### ImageCaptionService — `services/llm_service.py`

`LLMService._manage_cache` / `LLMService.get_image_description`. The cache is
a Python 3.7+ `dict`, i.e. an insertion-ordered association list in which
assignment to an existing key keeps its position. The language-model provider
is an external collaborator; one call's observable behaviour is collapsed into
`ProviderOutcome`. -/

/-- `self._image_cache`, in insertion order. -/
abbrev CaptionCache := List (String × String)

/-- Python `url in self._image_cache` / `self._image_cache[url]`. -/
def cacheLookup (c : CaptionCache) (k : String) : Option String :=
  (c.find? (fun e => e.1 = k)).map Prod.snd

/-- Python `self._image_cache[url] = description`: update in place when the
key exists (keeping its insertion position), else append. -/
def dictInsert (c : CaptionCache) (k v : String) : CaptionCache :=
  if (c.find? (fun e => e.1 = k)).isSome then
    c.map (fun e => if e.1 = k then (k, v) else e)
  else c ++ [(k, v)]

/-- `LLMService._manage_cache`: insert, then if the cache exceeds the
configured size delete the first (oldest-inserted) key. The `try/except`
around it can only fire on exotic runtime failures that a pure map cannot
exhibit. -/
def manage_cache (cap : Nat) (url desc : String) (c : CaptionCache) :
    CaptionCache :=
  if cap < (dictInsert c url desc).length then (dictInsert c url desc).drop 1
  else dictInsert c url desc

/-- Observable behaviour of the provider during one captioning attempt:
`get_using_provider()` itself raising, a provider whose `modalities` list
advertises no image/vision capability, `text_chat` raising, or `text_chat`
returning a completion (`none` models a `None` completion_text). -/
inductive ProviderOutcome where
  | getProviderRaises (msg : String)
  | noVision
  | callRaises (msg : String)
  | replies (text : Option String)
  deriving DecidableEq, Repr

/-- Outcomes the spec calls failures: everything except a reply with
non-trivial text (the `（未解析到可读内容）` marker counts as empty). -/
def isFailureOutcome : ProviderOutcome → Bool
  | .getProviderRaises _ => true
  | .noVision => true
  | .callRaises _ => true
  | .replies t => t.getD "" = "" || t.getD "" = "（未解析到可读内容）"

/-- `LLMService.get_image_description` for one call: result, new cache, and
whether the captioning backend (`provider.text_chat`) was invoked. The
semaphore and inter-request delay affect timing only and are not modelled;
the outermost `try/except` can only fire on failures that a pure model cannot
exhibit (every modelled path is already caught by the inner handlers). -/
def get_image_description (enable : Bool) (cap : Nat)
    (outcome : ProviderOutcome) (url : String) (c : CaptionCache) :
    String × CaptionCache × Bool :=
  match enable with
  | false => ("[图片]", c, false)
  | true =>
    match cacheLookup c url with
    | some v => (v, c, false)
    | none =>
      match outcome with
      | .getProviderRaises _ => ("[图片]", manage_cache cap url "[图片]" c, false)
      | .noVision => ("[图片]", manage_cache cap url "[图片]" c, false)
      | .callRaises _ => ("[图片]", manage_cache cap url "[图片]" c, true)
      | .replies t =>
        if t.getD "" ≠ "" ∧ t.getD "" ≠ "（未解析到可读内容）" then
          ("[图片: " ++ t.getD "" ++ "]",
            manage_cache cap url ("[图片: " ++ t.getD "" ++ "]") c, true)
        else ("[图片]", manage_cache cap url "[图片]" c, true)

theorem strAppend_ne_empty_right (a b : String) (hb : b ≠ "") : a ++ b ≠ "" := by
  intro h
  apply hb
  have hd := congrArg String.data h
  rw [String.data_append] at hd
  have h2 := List.append_eq_nil.mp hd
  exact String.ext h2.2

theorem cacheLookup_mem {c : CaptionCache} {k v : String}
    (h : cacheLookup c k = some v) : (k, v) ∈ c := by
  unfold cacheLookup at h
  obtain ⟨e, he, hev⟩ := Option.map_eq_some'.mp h
  have hmem := List.mem_of_find?_eq_some he
  have hkey : e.1 = k := by simpa using List.find?_some he
  obtain ⟨e1, e2⟩ := e
  simp only at hkey hev
  rw [hkey, hev] at hmem
  exact hmem

theorem dictInsert_values {c : CaptionCache} {url desc : String}
    (hc : ∀ e ∈ c, e.2 ≠ "") (hd : desc ≠ "") :
    ∀ e ∈ dictInsert c url desc, e.2 ≠ "" := by
  unfold dictInsert
  split_ifs
  · intro e he
    obtain ⟨x, hx, hxe⟩ := List.mem_map.mp he
    by_cases hk : x.1 = url
    · rw [if_pos hk] at hxe; rw [← hxe]; exact hd
    · rw [if_neg hk] at hxe; rw [← hxe]; exact hc x hx
  · intro e he
    rcases List.mem_append.mp he with h | h
    · exact hc e h
    · rw [List.mem_singleton] at h; rw [h]; exact hd

theorem manage_cache_values {cap : Nat} {url desc : String} {c : CaptionCache}
    (hc : ∀ e ∈ c, e.2 ≠ "") (hd : desc ≠ "") :
    ∀ e ∈ manage_cache cap url desc c, e.2 ≠ "" := by
  unfold manage_cache
  split_ifs
  · intro e he
    exact dictInsert_values hc hd e ((List.drop_sublist _ _).subset he)
  · exact dictInsert_values hc hd

/-- C6: for every configuration, URL, provider behaviour and cache whose
entries were produced by this service (all values non-empty), one captioning
call never raises (it is a total function), returns a non-empty display
string, preserves the all-values-non-empty cache invariant, and returns the
literal placeholder `"[图片]"` on any failure (captioning disabled, provider
lookup raising, no vision capability, `text_chat` raising, or empty/marker
output). -/
theorem get_image_description_total_nonempty (enable : Bool) (cap : Nat)
    (outcome : ProviderOutcome) (url : String) (c : CaptionCache)
    (hc : ∀ e ∈ c, e.2 ≠ "") :
    (get_image_description enable cap outcome url c).1 ≠ "" ∧
    (∀ e ∈ (get_image_description enable cap outcome url c).2.1, e.2 ≠ "") ∧
    (enable = false → (get_image_description enable cap outcome url c).1 = "[图片]") ∧
    (enable = true → cacheLookup c url = none → isFailureOutcome outcome = true →
      (get_image_description enable cap outcome url c).1 = "[图片]") := by
  cases enable with
  | false =>
    refine ⟨?_, ?_, ?_, ?_⟩
    · simp only [get_image_description]; decide
    · simp only [get_image_description]; exact hc
    · intro _; simp only [get_image_description]
    · intro h; exact absurd h (by decide)
  | true =>
    cases hlk : cacheLookup c url with
    | some v =>
      have hv : v ≠ "" := hc (url, v) (cacheLookup_mem hlk)
      refine ⟨?_, ?_, ?_, ?_⟩
      · simp only [get_image_description, hlk]; exact hv
      · simp only [get_image_description, hlk]; exact hc
      · intro h; exact absurd h (by decide)
      · intro _ h; exact Option.noConfusion h
    | none =>
      cases outcome with
      | getProviderRaises msg =>
        refine ⟨?_, ?_, ?_, ?_⟩
        · simp only [get_image_description, hlk]; decide
        · simp only [get_image_description, hlk]
          exact manage_cache_values hc (by decide)
        · intro h; exact absurd h (by decide)
        · intro _ _ _; simp only [get_image_description, hlk]
      | noVision =>
        refine ⟨?_, ?_, ?_, ?_⟩
        · simp only [get_image_description, hlk]; decide
        · simp only [get_image_description, hlk]
          exact manage_cache_values hc (by decide)
        · intro h; exact absurd h (by decide)
        · intro _ _ _; simp only [get_image_description, hlk]
      | callRaises msg =>
        refine ⟨?_, ?_, ?_, ?_⟩
        · simp only [get_image_description, hlk]; decide
        · simp only [get_image_description, hlk]
          exact manage_cache_values hc (by decide)
        · intro h; exact absurd h (by decide)
        · intro _ _ _; simp only [get_image_description, hlk]
      | replies t =>
        by_cases hgood : t.getD "" ≠ "" ∧ t.getD "" ≠ "（未解析到可读内容）"
        · have hne : ("[图片: " ++ t.getD "" ++ "]" : String) ≠ "" :=
            strAppend_ne_empty_right _ "]" (by decide)
          refine ⟨?_, ?_, ?_, ?_⟩
          · simp only [get_image_description, hlk, if_pos hgood]; exact hne
          · simp only [get_image_description, hlk, if_pos hgood]
            exact manage_cache_values hc hne
          · intro h; exact absurd h (by decide)
          · intro _ _ hfail
            simp only [isFailureOutcome] at hfail
            rcases Bool.or_eq_true_iff.mp hfail with h | h
            · exact absurd (of_decide_eq_true h) hgood.1
            · exact absurd (of_decide_eq_true h) hgood.2
        · refine ⟨?_, ?_, ?_, ?_⟩
          · simp only [get_image_description, hlk, if_neg hgood]; decide
          · simp only [get_image_description, hlk, if_neg hgood]
            exact manage_cache_values hc (by decide)
          · intro h; exact absurd h (by decide)
          · intro _ _ _; simp only [get_image_description, hlk, if_neg hgood]

/-- Witness for C6: a rate-limited `text_chat` failure on an empty cache. -/
theorem get_image_description_total_nonempty_witness :
    (get_image_description true 100 (.callRaises "429 Request limit exceeded")
        "https://example.com/a.jpg" []).1 ≠ "" ∧
    (∀ e ∈ (get_image_description true 100
        (.callRaises "429 Request limit exceeded")
        "https://example.com/a.jpg" []).2.1, e.2 ≠ "") ∧
    (true = false → (get_image_description true 100
        (.callRaises "429 Request limit exceeded")
        "https://example.com/a.jpg" []).1 = "[图片]") ∧
    (true = true → cacheLookup [] "https://example.com/a.jpg" = none →
      isFailureOutcome (.callRaises "429 Request limit exceeded") = true →
      (get_image_description true 100 (.callRaises "429 Request limit exceeded")
          "https://example.com/a.jpg" []).1 = "[图片]") :=
  get_image_description_total_nonempty true 100
    (.callRaises "429 Request limit exceeded") "https://example.com/a.jpg" []
    (by simp)

theorem dictInsert_length (c : CaptionCache) (k v : String) :
    (dictInsert c k v).length =
      if (c.find? (fun e => e.1 = k)).isSome then c.length else c.length + 1 := by
  unfold dictInsert
  split_ifs <;> simp

theorem manage_cache_length {cap : Nat} {url desc : String} {c : CaptionCache}
    (hlen : c.length ≤ cap) : (manage_cache cap url desc c).length ≤ cap := by
  have hd := dictInsert_length c url desc
  unfold manage_cache
  split_ifs with h1
  · rw [List.length_drop]
    split_ifs at hd <;> omega
  · split_ifs at hd <;> omega

/-- C7: (a) a captioning call for a URL already in the cache never invokes the
backend and (when captioning is enabled) returns the cached string unchanged;
(b) if the cache is within its configured capacity before a call, it still is
afterwards (so starting from the empty cache no call sequence can ever leave
it above capacity); (c) when inserting a fresh URL into a cache at exactly its
capacity, `_manage_cache` appends the new entry and evicts exactly the single
oldest-inserted (first) entry — FIFO, not recency-based. -/
theorem caption_cache_policy (enable : Bool) (cap : Nat)
    (outcome : ProviderOutcome) (url v : String) (c : CaptionCache) :
    (cacheLookup c url = some v →
      (get_image_description enable cap outcome url c).2.2 = false ∧
      (enable = true → (get_image_description enable cap outcome url c).1 = v)) ∧
    (c.length ≤ cap →
      (get_image_description enable cap outcome url c).2.1.length ≤ cap) ∧
    (cacheLookup c url = none → c.length = cap →
      manage_cache cap url v c = (c ++ [(url, v)]).drop 1) := by
  refine ⟨?_, ?_, ?_⟩
  · intro hlk
    cases enable with
    | false =>
      refine ⟨?_, ?_⟩
      · simp only [get_image_description]
      · intro h; exact absurd h (by decide)
    | true =>
      refine ⟨?_, ?_⟩
      · simp only [get_image_description, hlk]
      · intro _; simp only [get_image_description, hlk]
  · intro hlen
    cases enable with
    | false => simp only [get_image_description]; exact hlen
    | true =>
      cases hlk : cacheLookup c url with
      | some w => simp only [get_image_description, hlk]; exact hlen
      | none =>
        cases outcome with
        | getProviderRaises msg =>
          simp only [get_image_description, hlk]
          exact manage_cache_length hlen
        | noVision =>
          simp only [get_image_description, hlk]
          exact manage_cache_length hlen
        | callRaises msg =>
          simp only [get_image_description, hlk]
          exact manage_cache_length hlen
        | replies t =>
          by_cases hgood : t.getD "" ≠ "" ∧ t.getD "" ≠ "（未解析到可读内容）"
          · simp only [get_image_description, hlk, if_pos hgood]
            exact manage_cache_length hlen
          · simp only [get_image_description, hlk, if_neg hgood]
            exact manage_cache_length hlen
  · intro hlk hlen
    have hfind : (c.find? (fun e => e.1 = url)).isSome = false := by
      unfold cacheLookup at hlk
      cases h : c.find? (fun e => e.1 = url) with
      | none => rfl
      | some e => rw [h] at hlk; exact Option.noConfusion hlk
    unfold manage_cache dictInsert
    rw [hfind]
    simp only [Bool.false_eq_true, if_false]
    have hlt : cap < (c ++ [(url, v)]).length := by
      simp [hlen]
    rw [if_pos hlt]

/-- Witness for C7: a two-entry cache at capacity 2; a hit on `"a"` makes no
backend call and keeps the cache within capacity, and a fresh insert evicts
exactly the oldest entry. -/
theorem caption_cache_policy_witness :
    ((get_image_description true 2 (.replies (some "y")) "a"
        [("a", "[图片: x]"), ("b", "[图片]")]).2.2 = false ∧
      (true = true → (get_image_description true 2 (.replies (some "y")) "a"
        [("a", "[图片: x]"), ("b", "[图片]")]).1 = "[图片: x]")) ∧
    ((get_image_description true 2 (.replies (some "y")) "a"
        [("a", "[图片: x]"), ("b", "[图片]")]).2.1.length ≤ 2) ∧
    manage_cache 2 "c" "[图片]" [("a", "[图片: x]"), ("b", "[图片]")] =
      ([("a", "[图片: x]"), ("b", "[图片]"), ("c", "[图片]")] : CaptionCache).drop 1 := by
  refine ⟨?_, ?_, ?_⟩
  · exact (caption_cache_policy true 2 (.replies (some "y")) "a" "[图片: x]"
      [("a", "[图片: x]"), ("b", "[图片]")]).1 (by decide)
  · exact (caption_cache_policy true 2 (.replies (some "y")) "a" "[图片: x]"
      [("a", "[图片: x]"), ("b", "[图片]")]).2.1 (by decide)
  · exact (caption_cache_policy true 2 (.replies (some "y")) "c" "[图片]"
      [("a", "[图片: x]"), ("b", "[图片]")]).2.2 (by decide) (by decide)

/-! ### Summarization retry and degradation —
`services/llm_service.py` (`get_summary`) and
`services/summary_orchestrator.py`

The provider is modelled as a script `Nat → Except String String`: the outcome
of the i-th `text_chat` call process-wide (error message or completion text).
`asyncio.sleep` back-off delays affect timing only and are not modelled.

Modelled from the spec: the exception classes `LLMRateLimitError`,
`LLMTransientError` and `LLMEmptyResponseError` that
`summary_orchestrator.py` imports from `llm_service` are absent from the
source tree (the `llm_service.py` present raises plain `Exception`s); per the
spec's error taxonomy (§7), the rate-limit-exhaustion failure raised by
`get_summary` is what the orchestrator's `except LLMRateLimitError` branch
catches, and every other failure lands in the transient/unclassified branches,
which the source handles identically. -/

/-- `needle` occurs as a contiguous sublist of the second argument. -/
def listContains (needle : List Char) : List Char → Bool
  | [] => needle.isEmpty
  | c :: rest => needle.isPrefixOf (c :: rest) || listContains needle rest

/-- Python `needle in hay`. -/
def containsSub (hay needle : String) : Bool :=
  listContains needle.data hay.data

/-- The 429 classification of `LLMService.get_summary`:
`"429" in error_msg or "Request limit exceeded" in error_msg or
"rate limit" in error_msg.lower()`. -/
def is429 (msg : String) : Bool :=
  containsSub msg "429" || containsSub msg "Request limit exceeded" ||
    containsSub (strLower msg) "rate limit"

/-- The message of the exception `get_summary` raises when retries are
exhausted on rate limits. -/
def rateLimitRaiseMsg : String :=
  "请求过于频繁，请稍后再试。建议降低图片描述功能的并发数或增加延迟。"

/-- A failure escaping `get_summary`, classified as the orchestrator's
`except` ladder observes it (see the section comment). -/
inductive LLMFailure where
  | rateLimit (msg : String)
  | other (msg : String)
  deriving DecidableEq, Repr

/-- The `for attempt in range(max_retries + 1)` loop of
`LLMService.get_summary`: `remaining` is the number of retries still allowed
(`max_retries - attempt`), `idx` the index of the next provider call. A
success returns the completion; a 429-classified error retries while retries
remain and otherwise raises the fixed rate-limit exception; any other error is
raised immediately. Returns the outcome and the next call index. -/
def getSummaryGo (script : Nat → Except String String) :
    Nat → Nat → Except LLMFailure String × Nat
  | 0, idx =>
    match script idx with
    | .ok text => (.ok text, idx + 1)
    | .error e =>
      if is429 e then (.error (.rateLimit rateLimitRaiseMsg), idx + 1)
      else (.error (.other e), idx + 1)
  | r + 1, idx =>
    match script idx with
    | .ok text => (.ok text, idx + 1)
    | .error e =>
      if is429 e then getSummaryGo script r (idx + 1)
      else (.error (.other e), idx + 1)

/-- `LLMService.get_summary` starting at call index `idx`. -/
def get_summary (script : Nat → Except String String) (maxRetries idx : Nat) :
    Except LLMFailure String × Nat :=
  getSummaryGo script maxRetries idx

/-- `SummaryOrchestrator._build_chat_excerpt`. -/
def build_chat_excerpt (formatted : Option String) (maxChars : Nat) : String :=
  match formatted with
  | none => ""
  | some s =>
    if s = "" then ""
    else
      let text := pyStrip s
      if pyLen text ≤ maxChars then text
      else pyRstrip (pyTake text (maxChars - 1)) ++ "…"

/-- `SummaryOrchestrator._build_failure_summary` (default excerpt length). -/
def build_failure_summary (reason : String) (formatted : Option String) :
    String :=
  let parts := ["⚠️ 总结失败：系统暂时无法生成自动总结。"]
  let r := pyStrip reason
  let parts := if r ≠ "" then parts ++ ["原因：" ++ r] else parts
  let excerpt := build_chat_excerpt formatted 800
  let parts :=
    if excerpt ≠ "" then parts ++ ["以下为最近聊天摘录：", excerpt] else parts
  pyStrip (String.intercalate "\n\n" parts)

/-- `SummaryOrchestrator._cleanup_summary`. -/
def cleanup_summary (s : String) : String :=
  let c := pyStrip s
  let c := if pyStartsWith c "```md" then pyDrop c 5 else c
  let c := if pyStartsWith c "```markdown" then pyDrop c 11 else c
  let c := if pyEndsWith c "```" then pyDropRight c 3 else c
  pyStrip c

def noteDegradeOn : String := "⚠️ 已自动关闭图片描述功能以避免触发限流。"

def noteStillRateLimited : String := "⚠️ 关闭图片描述后仍触发限流，已输出降级结果。"

def noteStillFailing : String := "⚠️ 关闭图片描述后仍无法生成自动总结。"

/-- Result of one orchestrated summarization (`create_summary_with_image`'s
summary phase): the cleaned summary text (degradation notes included), the
total number of provider calls made, and `degrade_info` (reason and
rate-limited flag) — `raise_on_failure` only decides whether a non-`none`
`degrade_info` is raised as `SummaryGenerationError` instead of returned. -/
structure SummaryRun where
  summary : String
  modelCalls : Nat
  degradeInfo : Option (String × Bool)
  deriving DecidableEq, Repr

/-- `SummaryOrchestrator._handle_rate_limit_retry`: with captioning off,
build the failure summary directly; otherwise reformat without captions and
attempt summarization once more via `get_summary`, classifying the second
failure as the source's `except` ladder does. Returns (summary, notes,
degrade info, next call index). -/
def handle_rate_limit_retry (script : Nat → Except String String)
    (maxRetries idx : Nat) (baseErrorMsg formattedChat noImageChat : String)
    (imagesEnabled : Bool) :
    String × List String × Option (String × Bool) × Nat :=
  if imagesEnabled = false then
    (build_failure_summary baseErrorMsg (some formattedChat), [],
      some (baseErrorMsg, true), idx)
  else
    match get_summary script maxRetries idx with
    | (.ok s, idx') => (s, [noteDegradeOn], none, idx')
    | (.error (.rateLimit m), idx') =>
      (build_failure_summary m (some noImageChat),
        [noteDegradeOn, noteStillRateLimited], some (m, true), idx')
    | (.error (.other m), idx') =>
      (build_failure_summary m (some noImageChat),
        [noteDegradeOn, noteStillFailing], some (m, false), idx')

/-- The summary phase of `SummaryOrchestrator.create_summary_with_image` for a
non-empty message list: format results are passed in as `formattedChat`
(captioning per config) and `noImageChat` (captioning disabled, used by the
degradation pass); `imagesEnabled` is whether a captioning service was
resolved. Mirrors the `try/except` ladder, the notes append and
`_cleanup_summary`. -/
def create_summary_core (script : Nat → Except String String)
    (maxRetries : Nat) (formattedChat noImageChat : String)
    (imagesEnabled : Bool) : SummaryRun :=
  if formattedChat = "" then
    { summary := cleanup_summary "筛选后没有可供总结的聊天内容。",
      modelCalls := 0, degradeInfo := none }
  else
    match get_summary script maxRetries 0 with
    | (.ok s, idx) =>
      { summary := cleanup_summary s, modelCalls := idx, degradeInfo := none }
    | (.error (.rateLimit m), idx) =>
      match handle_rate_limit_retry script maxRetries idx m
          formattedChat noImageChat imagesEnabled with
      | (summary, notes, dinfo, idx') =>
        let withNotes :=
          if notes ≠ [] then
            summary ++ "\n\n" ++ String.intercalate "\n" notes
          else summary
        { summary := cleanup_summary withNotes, modelCalls := idx',
          degradeInfo := dinfo }
    | (.error (.other m), idx) =>
      { summary := cleanup_summary (build_failure_summary m (some formattedChat)),
        modelCalls := idx, degradeInfo := some (m, false) }

theorem getSummaryGo_allRate (script : Nat → Except String String)
    (h : ∀ i, ∃ m, script i = .error m ∧ is429 m = true) :
    ∀ remaining idx, getSummaryGo script remaining idx =
      (.error (.rateLimit rateLimitRaiseMsg), idx + remaining + 1) := by
  intro remaining
  induction remaining with
  | zero =>
    intro idx
    obtain ⟨m, hm, h4⟩ := h idx
    rw [getSummaryGo, hm]
    dsimp only
    rw [if_pos h4]
  | succ r ih =>
    intro idx
    obtain ⟨m, hm, h4⟩ := h idx
    rw [getSummaryGo, hm]
    dsimp only
    rw [if_pos h4, ih (idx + 1)]
    congr 1
    omega

/-- C2 counterexample: with `maxRetries = 2` and every provider call
rate-limited, the orchestrator makes 6 model calls in total — 3 for the
images-enabled transcript and 3 more for the captioning-disabled pass — not
the 4 (= 1 + maxRetries + 1) that the claim's "exactly one additional" call
demands. -/
theorem orchestrator_rate_limit_calls_cx :
    (create_summary_core (fun _ => .error "429") 2 "CHAT" "NOIMG" true).modelCalls
        = 6 ∧ (6 : Nat) ≠ 1 + 2 + 1 := by
  constructor
  · rfl
  · decide

/-- C2 (amended): when captioning is initially enabled and every provider call
fails with a rate-limit classification, the orchestrator makes exactly
`1 + maxRetries` model calls for the images-enabled transcript and then
exactly `1 + maxRetries` further model calls for the captioning-disabled
transcript (one additional `get_summary` invocation, which retries
internally), after which it returns the deterministic failure summary built
from the captioning-disabled transcript with both degradation notes appended,
and makes no further model calls. -/
theorem orchestrator_rate_limit_spec (script : Nat → Except String String)
    (maxRetries : Nat) (formattedChat noImageChat : String)
    (hchat : formattedChat ≠ "")
    (h : ∀ i, ∃ m, script i = .error m ∧ is429 m = true) :
    create_summary_core script maxRetries formattedChat noImageChat true =
      { summary := cleanup_summary
          (build_failure_summary rateLimitRaiseMsg (some noImageChat) ++
            "\n\n" ++ String.intercalate "\n" [noteDegradeOn, noteStillRateLimited]),
        modelCalls := 2 * (maxRetries + 1),
        degradeInfo := some (rateLimitRaiseMsg, true) } := by
  unfold create_summary_core
  rw [if_neg hchat]
  simp [get_summary, getSummaryGo_allRate script h, handle_rate_limit_retry,
    SummaryRun.mk.injEq]
  omega

/-- Witness for C2's amended theorem at `maxRetries = 1`. -/
theorem orchestrator_rate_limit_spec_witness :
    create_summary_core (fun _ => .error "rate limit hit") 1 "C" "N" true =
      { summary := cleanup_summary
          (build_failure_summary rateLimitRaiseMsg (some "N") ++
            "\n\n" ++ String.intercalate "\n" [noteDegradeOn, noteStillRateLimited]),
        modelCalls := 2 * (1 + 1),
        degradeInfo := some (rateLimitRaiseMsg, true) } :=
  orchestrator_rate_limit_spec (fun _ => .error "rate limit hit") 1 "C" "N"
    (by decide) (fun _ => ⟨"rate limit hit", rfl, by decide⟩)

set_option maxRecDepth 40000 in
/-- C8 counterexample: with `maxRetries = 2`, a first call failing with a
non-rate-limit (transient) classification and a second call that would
succeed, the summarization makes exactly 1 model call — it does not retry —
and falls to the deterministic failure text; under the claim's bounded-retry
rule the retry would have succeeded (or up to 3 calls would be made). -/
theorem transient_no_retry_cx :
    (create_summary_core
        (fun i => if i = 0 then .error "connection reset" else .ok "S")
        2 "CHAT" "NOIMG" true).modelCalls = 1 ∧ (1 : Nat) ≠ 1 + 2 ∧
    (create_summary_core
        (fun i => if i = 0 then .error "connection reset" else .ok "S")
        2 "CHAT" "NOIMG" true).summary ≠ cleanup_summary "S" := by
  refine ⟨rfl, by decide, ?_⟩
  decide

/-- C8 (amended): when the first provider call fails with a non-rate-limit
classification, `get_summary` raises immediately — no retry, no backoff delay
consumed — and the orchestrator falls directly to the deterministic failure
text built from the current transcript, with no degradation pass and exactly
one model call in total. -/
theorem transient_no_retry_spec (script : Nat → Except String String)
    (maxRetries : Nat) (formattedChat noImageChat : String)
    (imagesEnabled : Bool) (m : String)
    (hchat : formattedChat ≠ "")
    (h0 : script 0 = .error m) (h4 : is429 m = false) :
    create_summary_core script maxRetries formattedChat noImageChat
        imagesEnabled =
      { summary := cleanup_summary
          (build_failure_summary m (some formattedChat)),
        modelCalls := 1, degradeInfo := some (m, false) } := by
  have hneg : ¬ (is429 m = true) := by rw [h4]; decide
  unfold create_summary_core get_summary
  rw [if_neg hchat]
  cases maxRetries with
  | zero =>
    rw [getSummaryGo, h0]
    dsimp only
    rw [if_neg hneg]
  | succ r =>
    rw [getSummaryGo, h0]
    dsimp only
    rw [if_neg hneg]

/-- Witness for C8's amended theorem. -/
theorem transient_no_retry_spec_witness :
    create_summary_core (fun _ => .error "boom") 2 "C" "N" true =
      { summary := cleanup_summary (build_failure_summary "boom" (some "C")),
        modelCalls := 1, degradeInfo := some ("boom", false) } :=
  transient_no_retry_spec (fun _ => .error "boom") 2 "C" "N" true "boom"
    (by decide) rfl (by decide)

/-! ### TranscriptFormatter — `services/message_formatter.py` and
`utils/json_parser.py`

Message dictionaries are embedded as a nested inductive: a message carries the
keys the formatter reads; a part is the tagged variant the handler registry
dispatches on. `json.loads` results are embedded as a JSON value tree (`JVal`);
a `json` part carries `none` when `json.loads` raises `JSONDecodeError`.
`datetime.fromtimestamp(...).strftime('%Y-%m-%d %H:%M:%S')` is modelled in UTC
(the host timezone offset is not observable in any claim). -/

/-- A parsed JSON value (`json.loads` output). -/
inductive JVal where
  | jnull
  | jbool (b : Bool)
  | jnum (n : Int)
  | jstr (s : String)
  | jarr (xs : List JVal)
  | jobj (fields : List (String × JVal))

/-- Python `d.get(k)` on a JSON object. -/
def jlookup (fields : List (String × JVal)) (k : String) : Option JVal :=
  (fields.find? (fun e => e.1 = k)).map Prod.snd

/-- Python `d.get(k, default)`. -/
def jgetD (fields : List (String × JVal)) (k : String) (d : JVal) : JVal :=
  (jlookup fields k).getD d

/-- `.get` on a non-dict raises `AttributeError`. -/
def asObj : JVal → Except Unit (List (String × JVal))
  | .jobj fs => .ok fs
  | _ => .error ()

/-- Python falsiness of a JSON value. -/
def pyFalsyJ : JVal → Bool
  | .jnull => true
  | .jbool b => !b
  | .jnum n => n == 0
  | .jstr s => s == ""
  | .jarr xs => xs.isEmpty
  | .jobj fs => fs.isEmpty

/-- `str()` of a JSON value interpolated into an f-string. Containers are
abstracted to fixed markers (Python would render their repr; no claim reads
them). -/
def jvalToStr : JVal → String
  | .jnull => "None"
  | .jbool true => "True"
  | .jbool false => "False"
  | .jnum n => toString n
  | .jstr s => s
  | .jarr _ => "[\x85]"
  | .jobj _ => "\x7b\x85\x7d"

/-- `[无法解析的JSON内容: {e}]` — the interpolated exception text is
abstracted to the exception's class name. -/
def jsonErrText : String := "[无法解析的JSON内容: AttributeError]"

/-- Python `a or b` on JSON values looked up from a dict (`None`/falsy → b). -/
def jOr (a : Option JVal) (b : JVal) : JVal :=
  match a with
  | some v => if pyFalsyJ v then b else v
  | none => b

def spaces (n : Nat) : String := String.mk (List.replicate n ' ')

/-- Body of `JsonMessageParser.parse_json`'s `try` block (everything after
`app_type = json_data.get("app")`); `.error ()` is an
`AttributeError`/`TypeError` caught by its `except`. -/
def appIs (app : Option JVal) (s : String) : Bool :=
  match app with
  | some (.jstr t) => t == s
  | _ => false

def parseJsonBody (fields : List (String × JVal)) (indent : Nat) :
    Except Unit String :=
  let app := jlookup fields "app"
  if appIs app "com.tencent.multimsg" then do
    let meta ← asObj (jgetD fields "meta" (.jobj []))
    let detail ← asObj (jgetD meta "detail" (.jobj []))
    let news := jgetD detail "news" (.jarr [])
    if pyFalsyJ news then
      .ok "[空的转发消息]"
    else do
      let items ←
        match news with
        | .jarr xs => .ok xs
        | _ => .error ()
      let texts ← items.mapM (fun it => do
        let o ← asObj it
        match jgetD o "text" (.jstr "") with
        | .jstr s => Except.ok s
        | _ => Except.error ())
      let chat_lines := (texts.filter (fun s => pyStrip s ≠ "")).map
        (fun s => spaces (indent + 2) ++ s)
      .ok ("[转发消息]:\n" ++ spaces indent ++ "\\\x7b\n" ++
        String.intercalate "\n" chat_lines ++ spaces indent ++ "\\\x7d")
  else if appIs app "com.tencent.miniapp_01" then do
    let meta ← asObj (jgetD fields "meta" (.jobj []))
    let detail ← asObj (jgetD meta "detail_1" (.jobj []))
    let title := jvalToStr (jgetD detail "title" (.jstr "未知应用"))
    let desc := jvalToStr (jgetD detail "desc" (.jstr "无简介"))
    let url := jvalToStr (jOr (jlookup detail "qqdocurl")
      (jgetD detail "url" (.jstr "无链接")))
    .ok ("[分享 - " ++ title ++ "]\n简介: " ++ desc ++ "\n链接: " ++ url)
  else if appIs app "com.tencent.tuwen.lua" then do
    let meta ← asObj (jgetD fields "meta" (.jobj []))
    let news ← asObj (jgetD meta "news" (.jobj []))
    let title := jvalToStr (jgetD news "title" (.jstr "无标题"))
    let desc := jvalToStr (jgetD news "desc" (.jstr "无简介"))
    let url := jvalToStr (jgetD news "jumpUrl" (.jstr "无链接"))
    let tag := jvalToStr (jgetD news "tag" (.jstr ""))
    .ok ("[分享 - " ++ tag ++ "]\n标题: " ++ title ++ "\n简介: " ++ desc ++
      "\n链接: " ++ url)
  else
    .ok (jvalToStr (jgetD fields "prompt" (.jstr "[未知的JSON分享]")))

/-- `JsonMessageParser.parse_json` on a dict: the `except (KeyError,
TypeError, AttributeError)` handler turns any failure into the inline error
text. -/
def parse_json (fields : List (String × JVal)) (indent : Nat) : String :=
  match parseJsonBody fields indent with
  | .ok s => s
  | .error () => jsonErrText

mutual
/-- A message part (one element of `msg["message"]`), keyed by its `type`
with the `data` keys each handler reads. The platform never emits an `"id"`
key on message dicts, so `_find_replied_message`'s third lookup key is not
represented. -/
inductive MsgPart where
  | text (t : String)
  | image (url : Option String) (file : Option String) (summaryField : String)
  | video
  | face
  | reply (id : Option Int) (nickname : Option String) (name : Option String)
      (qq : Option Int) (user_id : Option Int) (text : Option String)
  | share (data : Option JVal)
  | forward (content : List RawMsg)
  | unknown

/-- A raw platform message as read by `MessageFormatter`. -/
inductive RawMsg where
  | mk (user_id : Option Int) (card : Option String)
      (nickname : Option String) (time : Nat) (message_id : Option Int)
      (message_seq : Option Int) (raw_message : Option String)
      (message : List MsgPart)
end

def RawMsg.user_id : RawMsg → Option Int
  | .mk u _ _ _ _ _ _ _ => u

def RawMsg.card : RawMsg → Option String
  | .mk _ c _ _ _ _ _ _ => c

def RawMsg.nickname : RawMsg → Option String
  | .mk _ _ n _ _ _ _ _ => n

def RawMsg.time : RawMsg → Nat
  | .mk _ _ _ t _ _ _ _ => t

def RawMsg.message_id : RawMsg → Option Int
  | .mk _ _ _ _ i _ _ _ => i

def RawMsg.message_seq : RawMsg → Option Int
  | .mk _ _ _ _ _ s _ _ => s

def RawMsg.raw_message : RawMsg → Option String
  | .mk _ _ _ _ _ _ r _ => r

def RawMsg.message : RawMsg → List MsgPart
  | .mk _ _ _ _ _ _ _ ps => ps

def isReplyType : MsgPart → Bool
  | .reply _ _ _ _ _ _ => true
  | _ => false

def isImageType : MsgPart → Bool
  | .image _ _ _ => true
  | _ => false

/-- `MessageFormatter._get_sender_display_name`:
`sender.get("card") or sender.get("nickname", "未知用户")`. -/
def displayName (card nickname : Option String) : String :=
  if strTruthy card then card.getD "" else nickname.getD "未知用户"

/-- `MessageFormatter._extract_image_url`:
`url = data.get("url") or data.get("file")`, returned only when it is a
non-empty string. -/
def extract_image_url (url file : Option String) : String :=
  match pyOrStr url file with
  | some s => s
  | none => ""

/-- `MessageFormatter._is_valid_image_url`. -/
def is_valid_image_url (u : String) : Bool :=
  u ≠ "" && (pyStartsWith (strLower u) "http://" ||
    pyStartsWith (strLower u) "https://")

/-- `MessageFormatter._handle_image_part`: result text and whether the caption
service was invoked. The caption collaborator is a total function
(`get_image_description` never raises — see
`get_image_description_total_nonempty` — so the `try/except` around it is
dead). -/
def handle_image_part (capFn : Option (String → String))
    (url file : Option String) (summaryField : String) : String × Bool :=
  if summaryField = "[动画表情]" then ("[动画表情]", false)
  else
    match capFn with
    | some f =>
      let u := extract_image_url url file
      if u ≠ "" ∧ is_valid_image_url u then (f u, true)
      else ("[图片]", false)
    | none => ("[图片]", false)

/-- `MessageFormatter._find_replied_message` over the currently loaded
message set (string-compared ids coincide with integer equality for the
integer-valued id fields modelled here). -/
def find_replied_message (rid : Option Int) (msgs : List RawMsg) :
    Option RawMsg :=
  match rid with
  | none => none
  | some i => msgs.find? (fun c =>
      c.message_id == some i || c.message_seq == some i)

/-- The common tail of `_handle_reply_part`. -/
def composeReply (sender content : String) : String :=
  if content ≠ "" then "[回复消息: " ++ sender ++ ": " ++ content ++ "]"
  else if sender ≠ "" then "[回复消息: " ++ sender ++ "]"
  else "[回复消息]"

/-- Day count since 1970-01-01 to a civil (year, month, day), per the standard
era-based algorithm; total and exact for all epoch days. -/
def civilFromDays (z0 : Nat) : Nat × Nat × Nat :=
  let z := z0 + 719468
  let era := z / 146097
  let doe := z % 146097
  let yoe := (doe - doe / 1460 + doe / 36524 - doe / 146096) / 365
  let y := yoe + era * 400
  let doy := doe - (365 * yoe + yoe / 4 - yoe / 100)
  let mp := (5 * doy + 2) / 153
  let d := doy - (153 * mp + 2) / 5 + 1
  let m := if mp < 10 then mp + 3 else mp - 9
  (if m ≤ 2 then y + 1 else y, m, d)

def pad2 (n : Nat) : String :=
  if n < 10 then "0" ++ toString n else toString n

/-- `datetime.fromtimestamp(t).strftime('%Y-%m-%d %H:%M:%S')`, in UTC. -/
def fmtTime (t : Nat) : String :=
  let c := civilFromDays (t / 86400)
  let secs := t % 86400
  toString c.1 ++ "-" ++ pad2 c.2.1 ++ "-" ++ pad2 c.2.2 ++ " " ++
    pad2 (secs / 3600) ++ ":" ++ pad2 (secs % 3600 / 60) ++ ":" ++
    pad2 (secs % 60)

/-- Formatter configuration: the trigger prefixes (`config.wake_prefix` in
the source). -/
structure FmtConfig where
  wakePrefixes : List String

/-- The per-message loop of `format_messages`, abstracted over the renderer:
an exception from a message's rendering aborts the whole call (there is no
`try` in `format_messages`), a `none` renders no line. -/
def renderLoop (f : RawMsg → Except Unit (Option String)) :
    List RawMsg → Except Unit (List String)
  | [] => .ok []
  | m :: rest => do
    let r ← f m
    let tail ← renderLoop f rest
    pure (match r with | none => tail | some line => line :: tail)

/-- The per-part loop of `_collect_message_text`, abstracted over the part
handler: a part raising is skipped (with the `"[图片]"` stand-in for image
parts), empty renderings are dropped, and reply parts are skipped when
`skip_reply` is set. -/
def partLoop (sr : Bool) (f : MsgPart → Except Unit String) :
    List MsgPart → List String
  | [] => []
  | p :: ps =>
    if sr && isReplyType p then partLoop sr f ps
    else
      match f p with
      | .error () =>
        if isImageType p then "[图片]" :: partLoop sr f ps
        else partLoop sr f ps
      | .ok s => if s = "" then partLoop sr f ps else s :: partLoop sr f ps

mutual
/-- `MessageFormatter.format_messages`: fuel models the Python interpreter's
recursion limit — each nested call level consumes one unit and exhaustion
models `RecursionError` (an exception like any other, caught by the nearest
enclosing per-part handler). The iterated list doubles as the reply-resolution
context, exactly as in the source. -/
def formatMessagesF (cfg : FmtConfig) (capFn : Option (String → String)) :
    Nat → List RawMsg → Int → Nat → Except Unit String
  | 0, _, _, _ => .error ()
  | fuel + 1, msgs, myId, indent => do
    let lines ← renderLoop
      (fun m => renderMessageF cfg capFn fuel m msgs myId indent) msgs
    pure (String.intercalate "\n" lines)
  termination_by structural fuel => fuel

/-- One iteration of `format_messages`'s message loop: skip the bot's own
messages, skip part-less messages, collect the parts, apply wake-prefix
suppression, and emit the transcript line when non-empty. -/
def renderMessageF (cfg : FmtConfig) (capFn : Option (String → String)) :
    Nat → RawMsg → List RawMsg → Int → Nat → Except Unit (Option String)
  | 0, _, _, _, _ => .error ()
  | fuel + 1, m, ctx, myId, indent =>
    if m.user_id == some myId then .ok none
    else if m.message.isEmpty then .ok none
    else do
      let pureText ← collectF cfg capFn fuel myId m.message ctx indent false
      let isWake := cfg.wakePrefixes.any (fun p =>
        pyStartsWith pureText (p ++ "image") || pyStartsWith pureText p)
      if isWake then pure none
      else if pureText ≠ "" then
        pure (some (spaces indent ++ "[" ++ fmtTime m.time ++ "]「" ++
          displayName m.card m.nickname ++ "」: " ++ pureText))
      else pure none
  termination_by structural fuel => fuel

/-- `MessageFormatter._collect_message_text`. -/
def collectF (cfg : FmtConfig) (capFn : Option (String → String)) :
    Nat → Int → List MsgPart → List RawMsg → Nat → Bool → Except Unit String
  | 0, _, _, _, _, _ => .error ()
  | fuel + 1, myId, parts, ctx, indent, sr =>
    .ok (pyStrip (String.intercalate " "
      (partLoop sr (fun p => handlePartF cfg capFn fuel myId p ctx indent)
        parts)))
  termination_by structural fuel => fuel

/-- `MessageFormatter._format_message_part`'s handler registry. -/
def handlePartF (cfg : FmtConfig) (capFn : Option (String → String)) :
    Nat → Int → MsgPart → List RawMsg → Nat → Except Unit String
  | 0, _, _, _, _ => .error ()
  | fuel + 1, myId, p, ctx, indent =>
    match p with
    | .text t => .ok (pyStrip t)
    | .image url file sm => .ok (handle_image_part capFn url file sm).1
    | .video => .ok "[视频]"
    | .face => .ok "[表情]"
    | .reply rid rnick rname rqq ruid rtext =>
      handleReplyF cfg capFn fuel myId rid rnick rname rqq ruid rtext ctx
        indent
    | .share d =>
      match d with
      | none => .ok "[无法读取的分享内容]"
      | some (.jobj fs) =>
        .ok ("\n" ++ parse_json fs (indent + 2) ++ "\n" ++ spaces indent)
      | some _ => .error ()
    | .forward content => do
      let inner ← formatMessagesF cfg capFn fuel content myId (indent + 2)
      pure ("\n" ++ spaces indent ++ "\x7b\n" ++ inner ++ "\n" ++
        spaces indent ++ "\x7d")
    | .unknown => .ok ""
  termination_by structural fuel => fuel

/-- `MessageFormatter._handle_reply_part` (the nested collection runs with
`skip_reply = True`). -/
def handleReplyF (cfg : FmtConfig) (capFn : Option (String → String)) :
    Nat → Int → Option Int → Option String → Option String → Option Int →
      Option Int → Option String → List RawMsg → Nat → Except Unit String
  | 0, _, _, _, _, _, _, _, _, _ => .error ()
  | fuel + 1, myId, rid, rnick, rname, rqq, ruid, rtext, ctx, indent =>
    match find_replied_message rid ctx with
    | some m => do
      let c ← collectF cfg capFn fuel myId m.message ctx indent true
      let content :=
        if c = "" then
          match m.raw_message with
          | some s => pyStrip s
          | none => ""
        else c
      pure (composeReply (displayName m.card m.nickname) content)
    | none =>
      let senderFromId :=
        let rsid := if intTruthy rqq then rqq else ruid
        if intTruthy rsid then toString (rsid.getD 0) else ""
      let sender :=
        match pyOrStr rnick rname with
        | some s => if pyStrip s ≠ "" then pyStrip s else senderFromId
        | none => senderFromId
      let content :=
        match rtext with
        | some s => pyStrip s
        | none => ""
      .ok (composeReply sender content)
  termination_by structural fuel => fuel
end

/-- Split into lines at `'\n'` (the inverse of `"\n".join`). -/
def splitLines : List Char → List (List Char)
  | [] => [[]]
  | c :: rest =>
    match splitLines rest with
    | [] => [[c]]
    | l :: ls => if c = '\n' then [] :: l :: ls else (c :: l) :: ls

/-- An empty wake-prefix configuration. -/
def exampleCfg : FmtConfig := ⟨[]⟩

/-- A chain of forwards nested `n` deep, with a marker text at the bottom. -/
def nestMsg : Nat → RawMsg
  | 0 => .mk (some 1) none (some "a") 0 none none none [.text "deep-core"]
  | n + 1 => .mk (some 1) none (some "a") 0 none none none
      [.forward [nestMsg n]]

set_option maxRecDepth 200000 in
set_option maxHeartbeats 1000000 in
/-- C4: the formatter has no recursion-depth bound and renders no truncation
placeholder. First conjunct: a forward chain nested 20 levels deep — beyond
the claimed fixed maximum (e.g. 16) — is still recursed into completely, the
innermost text appearing in the transcript. Second conjunct: when the
interpreter recursion limit (modelled by the fuel) is hit, the nested content
silently disappears from the transcript (the per-part `except` swallows the
`RecursionError`), with no truncation placeholder of any kind rendered in its
place. -/
theorem forward_recursion_unbounded :
    (formatMessagesF exampleCfg none 1000 [nestMsg 20] 0 0).map
        (fun out => listContains "deep-core".data out.data) = .ok true ∧
    (formatMessagesF exampleCfg none 30 [nestMsg 20] 0 0).map
        (fun out => listContains "deep-core".data out.data) = .ok false :=
  ⟨rfl, rfl⟩

/-- The spec's 10-message batch: sender ids 1–10, message #5 sent by the bot
(`ownSenderId = 5`), every other message rendering non-empty. -/
def exampleMsgs10 : List RawMsg :=
  (List.range 10).map (fun i =>
    .mk (some (Int.ofNat (i + 1))) none (some ("u" ++ toString (i + 1))) 0
      none none none [.text ("m" ++ toString (i + 1))])

set_option maxRecDepth 200000 in
set_option maxHeartbeats 1000000 in
/-- C9: (a) a message whose `senderId` equals `ownSenderId` renders no line,
regardless of its part content; (b) consequently the message loop's output
over any list equals its output over the list with the bot's own messages
removed (with the reply-resolution context unchanged); (c) the spec's
10-message batch with message #5 the bot's own yields exactly 9 transcript
lines. -/
theorem format_skips_own_messages :
    (∀ (cfg : FmtConfig) (capFn : Option (String → String)) (fuel : Nat)
       (m : RawMsg) (ctx : List RawMsg) (myId : Int) (indent : Nat),
      m.user_id = some myId →
      renderMessageF cfg capFn (fuel + 1) m ctx myId indent = .ok none) ∧
    (∀ (f : RawMsg → Except Unit (Option String)) (myId : Int)
       (msgs : List RawMsg),
      (∀ m ∈ msgs, m.user_id = some myId → f m = .ok none) →
      renderLoop f msgs =
        renderLoop f (msgs.filter (fun m => !(m.user_id == some myId)))) ∧
    (formatMessagesF exampleCfg none 50 exampleMsgs10 5 0).map
        (fun out => (splitLines out.data).length) = .ok 9 := by
  refine ⟨?_, ?_, ?_⟩
  · intro cfg capFn fuel m ctx myId indent h
    simp only [renderMessageF, h]
    simp
  · intro f myId msgs hf
    induction msgs with
    | nil => rfl
    | cons m rest ih =>
      have ih' := ih (fun x hx => hf x (List.mem_cons_of_mem _ hx))
      by_cases hown : m.user_id = some myId
      · have hfm := hf m (List.mem_cons_self _ _) hown
        have hfeq : List.filter (fun x => !(x.user_id == some myId)) (m :: rest)
            = List.filter (fun x => !(x.user_id == some myId)) rest := by
          simp [List.filter_cons, hown]
        rw [hfeq]
        simp only [renderLoop, hfm]
        rw [ih']
        cases renderLoop f
            (List.filter (fun x => !(x.user_id == some myId)) rest) <;> rfl
      · have hfeq : List.filter (fun x => !(x.user_id == some myId)) (m :: rest)
            = m :: List.filter (fun x => !(x.user_id == some myId)) rest := by
          simp [List.filter_cons, hown]
        rw [hfeq]
        simp only [renderLoop]
        rw [ih']
  · rfl

/-- Witness for C9: the bot's own message (sender id 5) renders no line even
though it has a non-empty text part. -/
theorem format_skips_own_messages_witness :
    renderMessageF exampleCfg none 3
      (.mk (some 5) none (some "bot") 0 none none none [.text "own content"])
      [] 5 0 = .ok none :=
  format_skips_own_messages.1 exampleCfg none 2
    (.mk (some 5) none (some "bot") 0 none none none [.text "own content"])
    [] 5 0 rfl

/-- C10 counterexample: an image part with no usable URL but whose `summary`
field is the animated-sticker marker renders `"[动画表情]"`, not the
`"[图片]"` placeholder the claim requires (the caption service is still not
invoked). -/
theorem image_part_sticker_cx :
    handle_image_part (some (fun _ => "[图片: X]")) none (some "sticker.gif")
        "[动画表情]" = ("[动画表情]", false) ∧
    ("[动画表情]" : String) ≠ "[图片]" :=
  ⟨rfl, by decide⟩

/-- C10 (amended): for every image part whose extracted URL is not a valid
`http(s)` URL (including parts carrying no URL at all), the formatter never
invokes the caption service for that part — even when captioning is enabled —
and renders `"[动画表情]"` when the part's `summary` field is the
animated-sticker marker, and the literal placeholder `"[图片]"` otherwise. -/
theorem image_part_invalid_url_spec (capFn : Option (String → String))
    (url file : Option String) (sm : String)
    (h : is_valid_image_url (extract_image_url url file) = false) :
    (handle_image_part capFn url file sm).2 = false ∧
    (handle_image_part capFn url file sm).1 =
      (if sm = "[动画表情]" then "[动画表情]" else "[图片]") := by
  unfold handle_image_part
  by_cases hsm : sm = "[动画表情]"
  · rw [if_pos hsm, if_pos hsm]
    exact ⟨rfl, rfl⟩
  · rw [if_neg hsm, if_neg hsm]
    cases capFn with
    | none => exact ⟨rfl, rfl⟩
    | some f =>
      dsimp only
      have hcond : ¬ (extract_image_url url file ≠ "" ∧
          is_valid_image_url (extract_image_url url file) = true) := by
        intro hc
        rw [h] at hc
        exact Bool.false_ne_true hc.2
      rw [if_neg hcond]
      exact ⟨rfl, rfl⟩

/-- Witness for C10's amended theorem: a local-file image reference. -/
theorem image_part_invalid_url_spec_witness :
    (handle_image_part (some (fun _ => "X")) none (some "C:/pics/cat.jpg")
        "").2 = false ∧
    (handle_image_part (some (fun _ => "X")) none (some "C:/pics/cat.jpg")
        "").1 =
      (if ("" : String) = "[动画表情]" then "[动画表情]" else "[图片]") :=
  image_part_invalid_url_spec (some (fun _ => "X")) none
    (some "C:/pics/cat.jpg") "" rfl

end ChatSummary
